import Mathlib

/-!
Verification of the `atomic` task runner: a shallow embedding of the
command resolution / execution engine (`src/command.rs`, `src/toml.rs`)
and the plugin script resolver / runner (`src/plugin.rs`), together with
theorems settling the specification claims.

TOML documents and tables are modelled as ordered association lists.
Modelled from the spec: the map type backing TOML tables is configured
outside `src/` (a Cargo feature of the external `toml` crate); per the
spec, iteration over a table follows "the document's own ordering", so a
table is a list of key/value pairs in document order.
-/

namespace Atomic

/-- The parsed TOML value tree (the shapes `toml::Value` offers that the
engine inspects: strings, integers, booleans, arrays, tables). -/
inductive TomlValue where
  | str (s : String)
  | int (n : Int)
  | boolean (b : Bool)
  | arr (elems : List TomlValue)
  | table (entries : List (String × TomlValue))

/-- First value bound to `key` in an (ordered) table, as `Map::get`. -/
def tableGet (t : List (String × TomlValue)) (key : String) : Option TomlValue :=
  match t with
  | [] => none
  | (k, v) :: rest => if k = key then some v else tableGet rest key

/-- `Value::as_str`. -/
def TomlValue.asStr : TomlValue → Option String
  | .str s => some s
  | _ => none

/-- `Value::as_table`. -/
def TomlValue.asTable : TomlValue → Option (List (String × TomlValue))
  | .table t => some t
  | _ => none

/-- `Value::get` (table lookup on a value; `none` on non-tables). -/
def TomlValue.get (v : TomlValue) (key : String) : Option TomlValue :=
  match v with
  | .table t => tableGet t key
  | _ => none

/-- The loop in `find_key_in_tables` over the top-level entries: for each
top-level section that is itself a table, in document order, check whether
it contains the key; first hit returns the owning section's name together
with the bound value. -/
def findInSections (entries : List (String × TomlValue)) (key : String) :
    Option (String × Option TomlValue) :=
  match entries with
  | [] => none
  | (k, v) :: rest =>
    match v with
    | .table inner =>
      if (tableGet inner key).isSome then some (k, tableGet inner key)
      else findInSections rest key
    | _ => findInSections rest key

/-- `find_key_in_tables` (src/toml.rs): root-level exact match first, then
each top-level table section in document order, then an explicit check of
the `custom` section. -/
def find_key_in_tables (parsed_toml : TomlValue) (key : String) :
    Option (String × Option TomlValue) :=
  match parsed_toml.asTable with
  | none => none
  | some t =>
    if (tableGet t key).isSome then some (key, tableGet t key)
    else
      match findInSections t key with
      | some r => some r
      | none =>
        match tableGet t "custom" with
        | some (.table customTable) =>
          match tableGet customTable key with
          | some v => some ("custom", some v)
          | none => none
        | _ => none

/-! ## Command execution engine (src/command.rs)

Execution is observed as a list of events: `send` is a call to
`git::send_command` (handing a literal string to the shell), the `err*`
events are the `eprintln!` error reports. The engine's recursion
(`run_command` → `execute_resolved_command` → `resolve_and_run_subcommand`
→ `run_command`) is not structurally terminating in the source, so the
embedding is fuel-indexed: `none` means the recursion exceeded any given
depth bound, i.e. the source diverges. -/

/-- Observable actions of the engine. -/
inductive Event where
  | send (cmd : String)
  | errNotFound (cmd : String)
  | errMissingCommand (label : String)
  | errUnsupported (cmdName : String)
deriving Repr, DecidableEq

/-- `run_table_command` (src/command.rs): the optional `before` hook, the
required `command` key (error report when missing or non-string), the
optional `after` hook, in that order. -/
def run_table_command (t : List (String × TomlValue)) (label : String) :
    List Event :=
  (match (tableGet t "before").bind TomlValue.asStr with
   | some before => [.send before]
   | none => []) ++
  (match (tableGet t "command").bind TomlValue.asStr with
   | some main => [.send main]
   | none => [.errMissingCommand label]) ++
  (match (tableGet t "after").bind TomlValue.asStr with
   | some after => [.send after]
   | none => [])

mutual

/-- `run_command` (src/command.rs). Loading and validating `atomic.toml`
is modelled as already done: every recursive invocation re-reads the same
file and so receives the same parsed value `toml`. -/
def run_command (fuel : Nat) (toml : TomlValue) (cmd : String) :
    Option (List Event) :=
  match find_key_in_tables toml cmd with
  | none => some [.errNotFound cmd]
  | some (_, value) => execute_resolved_command fuel toml value cmd
termination_by (fuel, 3, 0)

/-- `execute_resolved_command` (src/command.rs). -/
def execute_resolved_command (fuel : Nat) (toml : TomlValue)
    (value : Option TomlValue) (cmdName : String) : Option (List Event) :=
  match value with
  | some (.str s) => some [.send s]
  | some (.arr subCommands) => runChain fuel toml subCommands
  | some (.table t) =>
    match tableGet t "command" with
    | some (.arr chain) => runChain fuel toml chain
    | _ => some (run_table_command t cmdName)
  | _ => some [.errUnsupported cmdName]
termination_by (fuel, 2, 0)

/-- The `for val in …` loops of `execute_resolved_command` over an array:
string elements go through `resolve_and_run_subcommand`, everything else
is skipped. -/
def runChain (fuel : Nat) (toml : TomlValue) (vals : List TomlValue) :
    Option (List Event) :=
  match vals with
  | [] => some []
  | v :: rest =>
    match v.asStr with
    | some subCmd =>
      match resolve_and_run_subcommand fuel toml subCmd,
            runChain fuel toml rest with
      | some e1, some e2 => some (e1 ++ e2)
      | _, _ => none
    | none => runChain fuel toml rest
termination_by (fuel, 1, vals.length)

/-- `resolve_and_run_subcommand` (src/command.rs): a name bound to a
string, array or table re-enters `run_command`; anything else is sent to
the shell as raw text. The re-entry consumes one unit of fuel. -/
def resolve_and_run_subcommand (fuel : Nat) (toml : TomlValue)
    (subCmd : String) : Option (List Event) :=
  match find_key_in_tables toml subCmd with
  | some (_, some (.str _)) | some (_, some (.arr _))
  | some (_, some (.table _)) =>
    match fuel with
    | 0 => none
    | n + 1 => run_command n toml subCmd
  | _ => some [.send subCmd]
termination_by (fuel, 0, 0)

end

/-- A configuration whose command `a` is a chain naming `a` itself:
`a = ["a"]` at the document root. -/
def selfChainConfig : TomlValue := .table [("a", .arr [.str "a"])]

/-- On the self-referential configuration, `resolve_and_run_subcommand`
exhausts every fuel bound. -/
theorem resolve_self_chain_diverges :
    ∀ fuel, resolve_and_run_subcommand fuel selfChainConfig "a" = none := by
  intro fuel
  induction fuel with
  | zero =>
    simp [resolve_and_run_subcommand, find_key_in_tables, selfChainConfig,
      TomlValue.asTable, tableGet]
  | succ n ih =>
    simp only [selfChainConfig] at ih
    simp [resolve_and_run_subcommand, run_command, execute_resolved_command,
      runChain, find_key_in_tables, selfChainConfig, TomlValue.asTable,
      tableGet, TomlValue.asStr, ih]

/-- C2: the claim requires every execution of a command whose chain names
itself to terminate, via an explicit maximum recursion depth and a
circular-command-reference error. The code has no such guard: on the
configuration `a = ["a"]`, running `a` exceeds every fuel bound, i.e. the
recursion `run_command` → `execute_resolved_command` →
`resolve_and_run_subcommand` → `run_command` never terminates, and no
circular-reference error is ever reported. -/
theorem run_command_self_chain_diverges (fuel : Nat) :
    run_command fuel selfChainConfig "a" = none := by
  have h := resolve_self_chain_diverges fuel
  simp only [selfChainConfig] at h
  simp [run_command, execute_resolved_command, runChain, find_key_in_tables,
    selfChainConfig, TomlValue.asTable, tableGet, TomlValue.asStr, h]

/-- A hook table with `before` and `after` but no `command` key. -/
def hookOnlyTable : List (String × TomlValue) :=
  [("before", .str "make check"), ("after", .str "echo ok")]

/-- C5 counterexample: the claim says that when the `command` field is
missing, no step of the entry is executed, including its `before` and
`after` hooks. On the table `{before = "make check", after = "echo ok"}`
the code runs the `before` hook, reports the missing-command error, and
then still runs the `after` hook. -/
theorem missing_command_still_runs_hooks :
    run_table_command hookOnlyTable "deploy" =
      [.send "make check", .errMissingCommand "deploy", .send "echo ok"] ∧
    run_table_command hookOnlyTable "deploy" ≠ [] := by
  constructor
  · rfl
  · intro h
    simp [run_table_command, hookOnlyTable, tableGet, TomlValue.asStr] at h

/-- C5 amended: for every table whose `command` field is missing or holds
a non-string, non-array shape, interpreting the table reports the
missing-command error to the user, but the entry is not aborted wholesale:
the `before` hook (if a string) has already run and the `after` hook (if a
string) still runs; only the main command is skipped. -/
theorem missing_command_reports_error_hooks_run (fuel : Nat)
    (toml : TomlValue) (t : List (String × TomlValue)) (label : String)
    (harr : ∀ chain, tableGet t "command" ≠ some (.arr chain))
    (hstr : (tableGet t "command").bind TomlValue.asStr = none) :
    execute_resolved_command fuel toml (some (.table t)) label =
      some ((match (tableGet t "before").bind TomlValue.asStr with
             | some b => [Event.send b] | none => []) ++
            [Event.errMissingCommand label] ++
            (match (tableGet t "after").bind TomlValue.asStr with
             | some a => [Event.send a] | none => [])) := by
  have hrt : run_table_command t label =
      (match (tableGet t "before").bind TomlValue.asStr with
       | some b => [Event.send b] | none => []) ++
      [Event.errMissingCommand label] ++
      (match (tableGet t "after").bind TomlValue.asStr with
       | some a => [Event.send a] | none => []) := by
    simp only [run_table_command, hstr]
  rw [execute_resolved_command]
  match hc : tableGet t "command" with
  | none => simp [hrt]
  | some (.str s) => rw [hc] at hstr; simp [TomlValue.asStr] at hstr
  | some (.arr chain) => exact absurd hc (harr chain)
  | some (.int n) => simp [hrt]
  | some (.boolean b) => simp [hrt]
  | some (.table inner) => simp [hrt]

/-- C5 witness: the amended theorem at the concrete hook-only table. -/
theorem missing_command_reports_error_hooks_run_witness :
    execute_resolved_command 3 (.table []) (some (.table hookOnlyTable))
        "deploy" =
      some [.send "make check", .errMissingCommand "deploy",
            .send "echo ok"] := by
  have h := missing_command_reports_error_hooks_run 3 (.table [])
    hookOnlyTable "deploy" (by intro chain h; simp [hookOnlyTable, tableGet] at h)
    (by rfl)
  simpa [hookOnlyTable, tableGet, TomlValue.asStr] using h

/-- C7: for every table whose `command` field is an array, execution is
exactly the execution of that array as a chain — in particular it does not
depend on the table's `before` and `after` fields, which are never
executed. -/
theorem array_command_bypasses_hooks (fuel : Nat) (toml : TomlValue)
    (t : List (String × TomlValue)) (cmdName : String)
    (chain : List TomlValue)
    (h : tableGet t "command" = some (.arr chain)) :
    execute_resolved_command fuel toml (some (.table t)) cmdName =
      runChain fuel toml chain := by
  rw [execute_resolved_command, h]

/-- A hook table whose `command` is an array, with `before`/`after` set. -/
def arrayCommandTable : List (String × TomlValue) :=
  [("before", .str "make check"), ("command", .arr [.str "echo hi"]),
   ("after", .str "echo ok")]

/-- C7 witness: at a concrete table carrying both hooks and an array
command, execution equals the chain's execution and contains no hook
events. -/
theorem array_command_bypasses_hooks_witness :
    execute_resolved_command 3 (.table []) (some (.table arrayCommandTable))
        "x" = runChain 3 (.table []) [.str "echo hi"] ∧
    execute_resolved_command 3 (.table []) (some (.table arrayCommandTable))
        "x" = some [.send "echo hi"] := by
  refine ⟨array_command_bypasses_hooks 3 (.table []) arrayCommandTable "x"
    [.str "echo hi"] rfl, ?_⟩
  rw [array_command_bypasses_hooks 3 (.table []) arrayCommandTable "x"
    [.str "echo hi"] rfl]
  simp [runChain, resolve_and_run_subcommand, find_key_in_tables,
    findInSections, TomlValue.asTable, tableGet, TomlValue.asStr]

/-- C9: executing a chain array is the same as executing the sub-list of
its string elements: non-string elements are silently skipped — they
produce no execution and no error event — and the string elements run in
their original order. -/
theorem chain_skips_non_string_elements (fuel : Nat) (toml : TomlValue)
    (vals : List TomlValue) :
    runChain fuel toml vals =
      runChain fuel toml (vals.filter fun v => v.asStr.isSome) := by
  induction vals with
  | nil => rfl
  | cons v rest ih =>
    rw [runChain]
    match hv : v.asStr with
    | some s =>
      rw [List.filter_cons_of_pos (by simp [hv]), runChain, hv, ih]
    | none =>
      rw [List.filter_cons_of_neg (by simp [hv]), ih]

/-! ## The Key Resolver's search order (spec §4.1) -/

/-- Does a top-level section hold `key`? (Only mapping-valued sections are
considered.) -/
def sectionHasKey (key : String) : String × TomlValue → Bool :=
  fun kv =>
    match kv.2 with
    | .table inner => (tableGet inner key).isSome
    | _ => false

/-- The Key Resolver as the spec words it: (a) exact match at the document
root; (b) the first top-level mapping section, in the document's own
ordering, containing `key`; (c) explicit fallback check of the section
named `custom`; `none` when no step matches. Stated for comparison with
`find_key_in_tables`, the code's resolver. -/
def findKeySpec (doc : TomlValue) (key : String) :
    Option (String × Option TomlValue) :=
  match doc.asTable with
  | none => none
  | some t =>
    if (tableGet t key).isSome then some (key, tableGet t key)
    else
      match t.find? (sectionHasKey key) with
      | some (k, .table inner) => some (k, tableGet inner key)
      | _ =>
        match (tableGet t "custom").bind TomlValue.asTable with
        | some customTable =>
          (tableGet customTable key).map fun v => ("custom", some v)
        | none => none

/-- The section loop of the code agrees with a first-match search. -/
theorem findInSections_eq_find? (t : List (String × TomlValue))
    (key : String) :
    findInSections t key =
      match t.find? (sectionHasKey key) with
      | some (k, TomlValue.table inner) => some (k, tableGet inner key)
      | _ => none := by
  induction t with
  | nil => rfl
  | cons p rest ih =>
    obtain ⟨k, v⟩ := p
    cases v with
    | table inner =>
      by_cases h : (tableGet inner key).isSome
      · simp [findInSections, List.find?_cons, sectionHasKey, h]
      · simp [findInSections, List.find?_cons, sectionHasKey, h, ih]
    | str s => simpa [findInSections, List.find?_cons, sectionHasKey] using ih
    | int n => simpa [findInSections, List.find?_cons, sectionHasKey] using ih
    | boolean b =>
      simpa [findInSections, List.find?_cons, sectionHasKey] using ih
    | arr elems =>
      simpa [findInSections, List.find?_cons, sectionHasKey] using ih

/-- A top-level entry fails the section test exactly when it is not a
mapping holding `key`. -/
theorem sectionHasKey_eq_false_iff (key : String) (p : String × TomlValue) :
    sectionHasKey key p = false ↔
      ∀ inner, p.2 = TomlValue.table inner → tableGet inner key = none := by
  obtain ⟨k, v⟩ := p
  cases v with
  | table inner => cases htg : tableGet inner key <;> simp [sectionHasKey, htg]
  | str s => simp [sectionHasKey]
  | int n => simp [sectionHasKey]
  | boolean b => simp [sectionHasKey]
  | arr elems => simp [sectionHasKey]

/-- The section loop returns `none` exactly when no mapping section of the
document holds `key`. -/
theorem findInSections_eq_none_iff (t : List (String × TomlValue))
    (key : String) :
    findInSections t key = none ↔
      ∀ p ∈ t, ∀ inner, p.2 = TomlValue.table inner →
        tableGet inner key = none := by
  rw [findInSections_eq_find?]
  have hiff : (∀ p ∈ t, ∀ inner, p.2 = TomlValue.table inner →
      tableGet inner key = none) ↔
      ∀ p ∈ t, ¬(sectionHasKey key p = true) := by
    constructor
    · intro h p hp
      simp only [Bool.not_eq_true]
      exact (sectionHasKey_eq_false_iff key p).mpr (h p hp)
    · intro h p hp
      exact (sectionHasKey_eq_false_iff key p).mp
        (by simpa [Bool.not_eq_true] using h p hp)
  rw [hiff, ← List.find?_eq_none]
  constructor
  · intro h
    match hf : List.find? (sectionHasKey key) t with
    | none => rfl
    | some q =>
      exfalso
      have hq := List.find?_some hf
      obtain ⟨qk, qv⟩ := q
      cases qv <;> simp [sectionHasKey] at hq
      rw [hf] at h
      simp at h
  · intro hf
    rw [hf]

/-- The code's resolver agrees with the spec's wording on tables. -/
theorem find_key_agrees_spec_aux (t : List (String × TomlValue))
    (key : String) :
    find_key_in_tables (.table t) key = findKeySpec (.table t) key := by
  rw [find_key_in_tables, findKeySpec]
  simp only [TomlValue.asTable]
  by_cases h : (tableGet t key).isSome
  · simp [h]
  · simp only [h, if_false, Bool.false_eq_true]
    rw [findInSections_eq_find?]
    have hcustom :
        (match tableGet t "custom" with
         | some (TomlValue.table customTable) =>
           (match tableGet customTable key with
            | some v => some ("custom", some v)
            | none => (none : Option (String × Option TomlValue)))
         | _ => none) =
        (match (tableGet t "custom").bind TomlValue.asTable with
         | some customTable =>
           (tableGet customTable key).map fun v => ("custom", some v)
         | none => none) := by
      cases hc : tableGet t "custom" with
      | none => rfl
      | some v =>
        cases v with
        | table ct =>
          cases htg : tableGet ct key <;> simp [TomlValue.asTable, htg]
        | str s => simp [TomlValue.asTable]
        | int n => simp [TomlValue.asTable]
        | boolean b => simp [TomlValue.asTable]
        | arr elems => simp [TomlValue.asTable]
    match hf : List.find? (sectionHasKey key) t with
    | none => simpa using hcustom
    | some (qk, TomlValue.table inner) => rfl
    | some (qk, TomlValue.str s) => simpa using hcustom
    | some (qk, TomlValue.int n) => simpa using hcustom
    | some (qk, TomlValue.boolean b) => simpa using hcustom
    | some (qk, TomlValue.arr elems) => simpa using hcustom

/-- A successful lookup pinpoints a member of the association list. -/
theorem tableGet_mem {t : List (String × TomlValue)} {k : String}
    {v : TomlValue} (h : tableGet t k = some v) : (k, v) ∈ t := by
  induction t with
  | nil => simp [tableGet] at h
  | cons p rest ih =>
    obtain ⟨k', v'⟩ := p
    rw [tableGet] at h
    by_cases hk : k' = k
    · subst hk
      simp only [if_true] at h
      cases h
      simp
    · rw [if_neg hk] at h
      exact List.mem_cons_of_mem _ (ih h)

/-- `find_key_in_tables` on a table returns `none` exactly when the key is
matched nowhere: not at the root and not in any mapping section. -/
theorem find_key_none_aux (t : List (String × TomlValue)) (key : String) :
    find_key_in_tables (.table t) key = none ↔
      tableGet t key = none ∧
      ∀ p ∈ t, ∀ inner, p.2 = TomlValue.table inner →
        tableGet inner key = none := by
  rw [find_key_in_tables]
  simp only [TomlValue.asTable]
  constructor
  · intro h
    by_cases hroot : (tableGet t key).isSome
    · simp [hroot] at h
    · refine ⟨Option.not_isSome_iff_eq_none.mp (by simpa using hroot), ?_⟩
      rw [if_neg (by simpa using hroot)] at h
      match hs : findInSections t key with
      | some r => rw [hs] at h; simp at h
      | none => exact (findInSections_eq_none_iff t key).mp hs
  · rintro ⟨hroot, hall⟩
    rw [if_neg (by simp [hroot])]
    have hs : findInSections t key = none :=
      (findInSections_eq_none_iff t key).mpr hall
    rw [hs]
    cases hc : tableGet t "custom" with
    | none => rfl
    | some v =>
      cases v with
      | table ct =>
        have : tableGet ct key = none :=
          hall ("custom", .table ct) (tableGet_mem hc) ct rfl
        simp [this]
      | str s => rfl
      | int n => rfl
      | boolean b => rfl
      | arr elems => rfl

/-- C6: the Key Resolver searches in exactly the documented order — (a)
exact match at the document root, (b) each top-level mapping section in
the document's own ordering, (c) the explicit final check of `custom` —
with the first match winning (`find_key_in_tables` equals the
spec-transcribed resolver `findKeySpec`), and it returns `none` exactly
when the key matches nowhere. -/
theorem find_key_resolver_search_order (doc : TomlValue) (key : String) :
    find_key_in_tables doc key = findKeySpec doc key ∧
    (∀ t, doc = TomlValue.table t →
      (find_key_in_tables doc key = none ↔
        tableGet t key = none ∧
        ∀ p ∈ t, ∀ inner, p.2 = TomlValue.table inner →
          tableGet inner key = none)) := by
  constructor
  · cases doc with
    | table t => exact find_key_agrees_spec_aux t key
    | str s => rfl
    | int n => rfl
    | boolean b => rfl
    | arr elems => rfl
  · rintro t rfl
    exact find_key_none_aux t key

/-- Top-level entries of a small sample document: a root-level command, a
`custom` section, and a `plugin` section. -/
def sampleEntries : List (String × TomlValue) :=
  [("build", .str "make"),
   ("custom", .table [("ci", .str "cargo test")]),
   ("plugin", .table [("fmt", .table [("script", .str "tools/fmt")])])]

/-- The sample document. -/
def sampleDoc : TomlValue := .table sampleEntries

/-- C6 witness: the search-order theorem applied to the sample document,
with both lookups evaluated on concrete data. -/
theorem find_key_resolver_search_order_witness :
    (find_key_in_tables sampleDoc "ci" = findKeySpec sampleDoc "ci" ∧
     (find_key_in_tables sampleDoc "ci" = none ↔
       tableGet sampleEntries "ci" = none ∧
       ∀ p ∈ sampleEntries, ∀ inner, p.2 = TomlValue.table inner →
         tableGet inner "ci" = none)) ∧
    find_key_in_tables sampleDoc "ci" =
      some ("custom", some (.str "cargo test")) :=
  ⟨⟨(find_key_resolver_search_order sampleDoc "ci").1,
    (find_key_resolver_search_order sampleDoc "ci").2 sampleEntries rfl⟩,
   rfl⟩

/-! ## Plugin script resolver (src/plugin.rs)

The compile-time `cfg!(windows)` / `cfg!(unix)` choice is modelled by a
`Platform` parameter; the filesystem existence test `fs::metadata(..).is_ok()`
by a boolean predicate on paths. -/

/-- The compile-time target platform. -/
inductive Platform where
  | windows
  | unix
deriving Repr, DecidableEq

/-- `ScriptEngine` (src/plugin.rs). -/
structure ScriptEngine where
  ext : String
  program : String
  args : List String
  description : String
  os : Option String
deriving Repr, DecidableEq

/-- `built_in_engines` (src/plugin.rs): the full static engine table, in
source order. -/
def built_in_engines : List ScriptEngine :=
  [⟨"bat", "cmd", ["/C"], "Windows Batch script", some "windows"⟩,
   ⟨"cmd", "cmd", ["/C"], "Windows Command script", some "windows"⟩,
   ⟨"ps1", "powershell", ["-ExecutionPolicy", "Bypass", "-File"],
    "PowerShell script", some "windows"⟩,
   ⟨"sh", "sh", [], "Unix Shell script", some "unix"⟩,
   ⟨"py", "python", [], "Python script", none⟩,
   ⟨"go", "go", ["run"], "Go source file", none⟩,
   ⟨"js", "node", [], "Node.js JavaScript", none⟩,
   ⟨"mjs", "node", [], "Node.js ES module", none⟩,
   ⟨"ts", "deno", ["run"], "Deno TypeScript", none⟩,
   ⟨"rb", "ruby", [], "Ruby script", none⟩,
   ⟨"lua", "lua", [], "Lua script", none⟩,
   ⟨"exe", "", [], "Windows Executable", some "windows"⟩]

/-- The platform filter the source repeats at each use of the engine
table: `e.os.is_none() || (cfg!(windows) && e.os == Some("windows")) ||
(cfg!(unix) && e.os == Some("unix"))`. -/
def osApplicable (plat : Platform) (os : Option String) : Bool :=
  match os with
  | none => true
  | some o =>
    (plat = Platform.windows && o = "windows") ||
    (plat = Platform.unix && o = "unix")

/-- `supported_extensions` (src/plugin.rs): platform-applicable engines,
then — when a preferred extension is supplied — only the engines whose
extension equals it, mapped to their extensions. -/
def supported_extensions (plat : Platform) (preferred : Option String) :
    List String :=
  (((built_in_engines.filter fun e => osApplicable plat e.os).filter
      fun e =>
        match preferred with
        | none => true
        | some p => e.ext == p).map fun e => e.ext)

/-- `ScriptCommand` (src/plugin.rs). -/
structure ScriptCommand where
  program : String
  args : List String
deriving Repr, DecidableEq

/-- `io::ErrorKind` values the resolver and loader construct. -/
inductive IoErrorKind where
  | notFound
  | invalidInput
  | otherKind
deriving Repr, DecidableEq

/-- An `io::Error`: a kind plus its message. -/
structure IoError where
  kind : IoErrorKind
  msg : String
deriving Repr, DecidableEq

/-- `map_extension_to_command` (src/plugin.rs): first platform-applicable
engine with the given extension; `exe` is special-cased so the path itself
becomes the program with no arguments; otherwise the engine's program with
its fixed arguments and the path appended last. -/
def map_extension_to_command (plat : Platform) (full_path : String)
    (ext : String) : Except IoError ScriptCommand :=
  match built_in_engines.find?
      (fun e => e.ext == ext && osApplicable plat e.os) with
  | some engine =>
    if engine.ext == "exe" then .ok ⟨full_path, []⟩
    else .ok ⟨engine.program, engine.args ++ [full_path]⟩
  | none =>
    .error ⟨.invalidInput,
      s!"Unsupported script extension: .{ext} — define a plugin manually if needed."⟩

/-- A path separator of the platform (`/`, plus `\` on Windows). -/
def isSep (plat : Platform) (c : Char) : Bool :=
  c = '/' || (plat = Platform.windows && c = '\\')

/-- The final path component, as `Path::file_name`: trailing separators
ignored, `none` for an empty name or the special `.` / `..` components. -/
def lastComponent (plat : Platform) (s : String) : Option String :=
  let cs := (s.toList.reverse.dropWhile (isSep plat)).reverse
  let name := (cs.reverse.takeWhile fun c => ¬ isSep plat c).reverse
  if name = [] ∨ name = ['.'] ∨ name = ['.', '.'] then none
  else some (String.mk name)

/-- The extension of a file name, as Rust computes it: the portion after
the last `.`, with `none` when there is no `.` or when the only `.` leads
the name. -/
def extOfName (name : List Char) : Option String :=
  if name.contains '.' then
    let after := (name.reverse.takeWhile fun c => c ≠ '.').reverse
    if name.length - after.length - 1 = 0 then none
    else some (String.mk after)
  else none

/-- `Path::extension` on the script reference. -/
def pathExtension (plat : Platform) (s : String) : Option String :=
  (lastComponent plat s).bind fun name => extOfName name.toList

/-- `resolve_script_path` (src/plugin.rs). With an explicit extension the
reference is mapped directly (no filesystem check); otherwise the
supported extensions are probed on disk and the first existing candidate
wins (the multiple-match warning is terminal output only and is not part
of the result). -/
def resolve_script_path (plat : Platform) (fsExists : String → Bool)
    (base_path : String) (preferred : Option String) :
    Except IoError ScriptCommand :=
  match pathExtension plat base_path with
  | some ext => map_extension_to_command plat base_path ext
  | none =>
    let candidates := (supported_extensions plat preferred).filterMap
      fun ext =>
        let full := base_path ++ "." ++ ext
        if fsExists full then some (ext, full) else none
    match candidates with
    | [] => .error ⟨.notFound, s!"No supported script found for '{base_path}'"⟩
    | (ext, full) :: _ => map_extension_to_command plat full ext

/-- C3 counterexample: the claim says that with a preferred extension
supplied, resolution falls back to the remaining platform-supported
extensions, so that when only a file with another supported extension
exists, resolution still succeeds with that extension. On Unix, with only
`scripts/test.py` on disk and preferred extension `sh`, resolution fails
with "no supported script found" — although `py` is platform-supported and
the same call without a preference resolves to the Python engine. -/
theorem preferred_extension_no_fallback :
    resolve_script_path .unix (fun s => s == "scripts/test.py") "scripts/test"
        (some "sh") =
      .error ⟨.notFound, "No supported script found for 'scripts/test'"⟩ ∧
    (fun s => s == "scripts/test.py") ("scripts/test" ++ "." ++ "py") = true ∧
    "py" ∈ supported_extensions .unix none ∧
    resolve_script_path .unix (fun s => s == "scripts/test.py") "scripts/test"
        none = .ok ⟨"python", ["scripts/test.py"]⟩ := by
  refine ⟨rfl, by decide, by decide, rfl⟩

/-- Every extension surviving the preference filter is the preferred one:
the filter restricts, it does not reorder. -/
theorem supported_member_eq_preferred {plat : Platform} {p x : String}
    (hx : x ∈ supported_extensions plat (some p)) : x = p := by
  simp only [supported_extensions, List.mem_map, List.mem_filter] at hx
  obtain ⟨e, ⟨_, he⟩, hex⟩ := hx
  simp only [beq_iff_eq] at he
  rw [← hex, he]

/-- With a preferred extension supplied, resolution depends only on the
preferred file: when it does not exist, resolution fails with "no
supported script found", whatever other files exist on disk. -/
theorem resolve_preferred_requires_preferred_file (plat : Platform)
    (fsExists : String → Bool) (base_path p : String)
    (hnoext : pathExtension plat base_path = none)
    (hnofile : fsExists (base_path ++ "." ++ p) = false) :
    resolve_script_path plat fsExists base_path (some p) =
      .error ⟨.notFound, s!"No supported script found for '{base_path}'"⟩ := by
  simp only [resolve_script_path, hnoext]
  have hcand : (supported_extensions plat (some p)).filterMap
      (fun ext =>
        if fsExists (base_path ++ "." ++ ext) then
          some (ext, base_path ++ "." ++ ext)
        else none) = [] := by
    rw [List.filterMap_eq_nil_iff]
    intro x hx
    rw [supported_member_eq_preferred hx, hnofile]
    rfl
  rw [hcand]

/-- Taking the first on-disk candidate of the probe loop is the same as a
first-match search over the extension list. -/
theorem candidates_first_eq_find (plat : Platform) (fsE : String → Bool)
    (base : String) (exts : List String) :
    (match exts.filterMap (fun ext =>
        if fsE (base ++ "." ++ ext) then some (ext, base ++ "." ++ ext)
        else none) with
     | [] => (.error ⟨.notFound, s!"No supported script found for '{base}'"⟩ :
         Except IoError ScriptCommand)
     | (ext, full) :: _ => map_extension_to_command plat full ext) =
    (match exts.find? (fun ext => fsE (base ++ "." ++ ext)) with
     | some ext => map_extension_to_command plat (base ++ "." ++ ext) ext
     | none =>
       .error ⟨.notFound, s!"No supported script found for '{base}'"⟩) := by
  induction exts with
  | nil => rfl
  | cons e rest ih =>
    by_cases h : fsE (base ++ "." ++ e)
    · simp [List.filterMap_cons, List.find?_cons, h]
    · simp only [List.filterMap_cons, List.find?_cons, h, if_false]
      simpa [h] using ih

/-- Without a preference, the candidate extension list is the
platform-applicable slice of the engine table, in table order. -/
theorem supported_none_is_table_order (plat : Platform) :
    supported_extensions plat none =
      (built_in_engines.filter fun e => osApplicable plat e.os).map
        (fun e => e.ext) := by
  simp [supported_extensions, List.filter_true]

/-- C3 amended: for every extensionless script reference — (i) with a
preferred extension supplied, the candidate list is restricted to the
preferred extension alone, so when no file with it exists resolution
fails with "no supported script found", regardless of which files with
other supported extensions exist; (ii) with no preference, resolution
takes the first extension in the candidate list whose file exists (and
fails only when none exists); (iii) that candidate list is exactly the
platform-applicable slice of the engine table, in engine-table order. -/
theorem resolve_candidate_extension_order (plat : Platform)
    (fsExists : String → Bool) (base_path : String)
    (hnoext : pathExtension plat base_path = none) :
    (∀ p, fsExists (base_path ++ "." ++ p) = false →
      resolve_script_path plat fsExists base_path (some p) =
        .error ⟨.notFound, s!"No supported script found for '{base_path}'"⟩) ∧
    (resolve_script_path plat fsExists base_path none =
      match (supported_extensions plat none).find?
          (fun ext => fsExists (base_path ++ "." ++ ext)) with
      | some ext => map_extension_to_command plat (base_path ++ "." ++ ext) ext
      | none =>
        .error ⟨.notFound, s!"No supported script found for '{base_path}'"⟩) ∧
    supported_extensions plat none =
      (built_in_engines.filter fun e => osApplicable plat e.os).map
        (fun e => e.ext) := by
  refine ⟨fun p hp =>
    resolve_preferred_requires_preferred_file plat fsExists base_path p
      hnoext hp, ?_, supported_none_is_table_order plat⟩
  simp only [resolve_script_path, hnoext]
  exact candidates_first_eq_find plat fsExists base_path
    (supported_extensions plat none)

/-- C3 amended witness: with only `scripts/test.py` on disk, preferring
`sh` fails while no preference resolves to the Python engine via the
first existing candidate; the Unix candidate list is evaluated. -/
theorem resolve_candidate_extension_order_witness :
    resolve_script_path .unix (fun s => s == "scripts/test.py")
        "scripts/test" (some "sh") =
      .error ⟨.notFound, "No supported script found for 'scripts/test'"⟩ ∧
    resolve_script_path .unix (fun s => s == "scripts/test.py")
        "scripts/test" none = .ok ⟨"python", ["scripts/test.py"]⟩ ∧
    supported_extensions .unix none =
      ["sh", "py", "go", "js", "mjs", "ts", "rb", "lua"] := by
  have h := resolve_candidate_extension_order .unix
    (fun s => s == "scripts/test.py") "scripts/test" (by decide)
  refine ⟨h.1 "sh" (by decide), ?_, by decide⟩
  rw [h.2.1]
  rfl

/-- C8: a script reference that already carries an extension matched by a
platform-applicable engine descriptor resolves to that descriptor's
program with its fixed arguments and the reference appended last — with
`exe` special-cased to make the reference itself the program — for every
filesystem state: no existence check is involved. -/
theorem explicit_extension_no_fs_check (plat : Platform)
    (fsExists : String → Bool) (base_path : String)
    (preferred : Option String) (ext : String) (engine : ScriptEngine)
    (hext : pathExtension plat base_path = some ext)
    (heng : built_in_engines.find?
      (fun e => e.ext == ext && osApplicable plat e.os) = some engine) :
    resolve_script_path plat fsExists base_path preferred =
      (if engine.ext == "exe" then .ok ⟨base_path, []⟩
       else .ok ⟨engine.program, engine.args ++ [base_path]⟩) := by
  simp only [resolve_script_path, hext, map_extension_to_command, heng]

/-- C8 witness: explicit-extension resolution on a filesystem where no
file exists at all, for a Python script and for the `exe` special case. -/
theorem explicit_extension_no_fs_check_witness :
    resolve_script_path .unix (fun _ => false) "foo.py" none =
        .ok ⟨"python", ["foo.py"]⟩ ∧
    resolve_script_path .windows (fun _ => false) "tool.exe" none =
        .ok ⟨"tool.exe", []⟩ := by
  constructor
  · have h := explicit_extension_no_fs_check .unix (fun _ => false) "foo.py"
      none "py" ⟨"py", "python", [], "Python script", none⟩ (by decide)
      (by decide)
    simpa using h
  · have h := explicit_extension_no_fs_check .windows (fun _ => false)
      "tool.exe" none "exe" ⟨"exe", "", [], "Windows Executable",
      some "windows"⟩ (by decide) (by decide)
    simpa using h

/-! ## Plugin runner (src/plugin.rs): loading, entry parsing, outcome

Filesystem reading (`read_to_string`) and TOML parsing (`toml::from_str`)
are external collaborators, modelled as function parameters: `readFile`
returns `none` when the path cannot be read, `parseToml` returns `none`
when the contents are not valid TOML. A computation that can abort the
process (an `expect`/index panic) is distinguished from one returning an
error result by the `POutcome` type. -/

/-- Result of a fallible computation that may also panic (aborting the
process) instead of returning. -/
inductive POutcome (α : Type) where
  | ok (a : α)
  | err (e : IoError)
  | panic (msg : String)
deriving Repr, DecidableEq

/-- Is the outcome an error result (as opposed to success or a panic)? -/
def POutcome.isErr {α : Type} : POutcome α → Bool
  | .err _ => true
  | _ => false

/-- Did the computation panic? -/
def POutcome.isPanic {α : Type} : POutcome α → Bool
  | .panic _ => true
  | _ => false

/-- `get_toml_content` (src/toml.rs): `read_to_string(..).expect("Unable
to read atomic file")` panics on an unreadable path; a readable file is
parsed with `toml::from_str(..).ok()`, so a parse failure yields `none`,
never an error value. -/
def get_toml_content (readFile : String → Option String)
    (parseToml : String → Option TomlValue) (atomic : String) :
    POutcome (Option TomlValue) :=
  match readFile atomic with
  | none => .panic "Unable to read atomic file"
  | some contents => .ok (parseToml contents)

/-- `load_atomic_toml` (src/plugin.rs): `get_toml_content(path)
.ok_or_else(|| io::Error::new(NotFound, "atomic.toml not found"))`. -/
def load_atomic_toml (readFile : String → Option String)
    (parseToml : String → Option TomlValue) (path : String) :
    POutcome TomlValue :=
  match get_toml_content readFile parseToml path with
  | .panic m => .panic m
  | .err e => .err e
  | .ok none => .err ⟨.notFound, "atomic.toml not found"⟩
  | .ok (some v) => .ok v

/-- C10: an unreadable path makes `run_plugin`'s configuration loading
panic rather than return an error result, and the not-found error of
`load_atomic_toml` is reachable only when the file was readable but its
contents failed to parse as TOML. -/
theorem load_atomic_toml_panic_vs_notfound
    (readFile : String → Option String)
    (parseToml : String → Option TomlValue) (path : String) :
    (readFile path = none →
      load_atomic_toml readFile parseToml path =
        .panic "Unable to read atomic file") ∧
    (load_atomic_toml readFile parseToml path =
        .err ⟨.notFound, "atomic.toml not found"⟩ →
      ∃ contents, readFile path = some contents ∧
        parseToml contents = none) := by
  constructor
  · intro h
    simp [load_atomic_toml, get_toml_content, h]
  · intro h
    rw [load_atomic_toml] at h
    match hr : readFile path with
    | none => simp [get_toml_content, hr] at h
    | some contents =>
      refine ⟨contents, rfl, ?_⟩
      match hp : parseToml contents with
      | none => rfl
      | some v => simp [get_toml_content, hr, hp] at h

/-- C10 witness: a filesystem with no readable files panics the loader; a
filesystem holding an unparseable file produces the not-found error from
a successful read and a failed parse. -/
theorem load_atomic_toml_panic_vs_notfound_witness :
    load_atomic_toml (fun _ => none) (fun _ => none) "atomic.toml" =
      .panic "Unable to read atomic file" ∧
    ∃ contents, (fun _ => some "not toml [") "atomic.toml" =
        some contents ∧ (fun _ => none : String → Option TomlValue)
        contents = none :=
  ⟨(load_atomic_toml_panic_vs_notfound (fun _ => none) (fun _ => none)
      "atomic.toml").1 rfl,
   (load_atomic_toml_panic_vs_notfound (fun _ => some "not toml [")
      (fun _ => none) "atomic.toml").2 rfl⟩

/-- `Value::as_array`. -/
def TomlValue.asArr : TomlValue → Option (List TomlValue)
  | .arr elems => some elems
  | _ => none

/-- `Value::as_bool`. -/
def TomlValue.asBool : TomlValue → Option Bool
  | .boolean b => some b
  | _ => none

/-- `PluginConfig` (src/plugin.rs). -/
structure PluginConfig where
  script : String
  args : List String
  preferred : Option String
  silent : Bool
deriving Repr, DecidableEq

/-- `parse_plugin_entry` (src/plugin.rs). A missing plugin entry is an
error result; once the entry table is found, the `script` field is read
with `plugin_section["script"].as_str().expect("plugin.script must be a
string")` — indexing a table aborts the process on a missing key, and the
`expect` aborts it on a non-string value, so both paths are panics, not
error results. -/
def parse_plugin_entry (name : String) (toml : TomlValue) :
    POutcome PluginConfig :=
  match ((toml.get "plugin").bind fun v => v.get name).bind
      TomlValue.asTable with
  | none => .err ⟨.notFound, s!"Plugin '{name}' not found"⟩
  | some plugin_section =>
    match tableGet plugin_section "script" with
    | none => .panic "no entry found for key"
    | some sv =>
      match sv.asStr with
      | none => .panic "plugin.script must be a string"
      | some script =>
        let preferred :=
          (tableGet plugin_section "preferred").bind TomlValue.asStr
        let args :=
          match (tableGet plugin_section "args").bind TomlValue.asArr with
          | some arr => arr.filterMap TomlValue.asStr
          | none => []
        let silent :=
          match (tableGet plugin_section "silent").bind TomlValue.asBool with
          | some b => b
          | none => false
        .ok ⟨script, args, preferred, silent⟩

/-- A document whose plugin section holds the entry `foo`, whose table
lacks the required `script` field. -/
def noScriptConfig : TomlValue :=
  .table [("plugin", .table [("foo", .table [("silent", .boolean true)])])]

/-- C4 counterexample: the claim says a present plugin entry lacking the
required `script` field is reported as an error result to the caller. On
`[plugin.foo]` with no `script` key, `parse_plugin_entry` panics (aborts
the process via the table-index `expect` path) and returns no error
result. -/
theorem missing_script_panics_not_error :
    parse_plugin_entry "foo" noScriptConfig = .panic "no entry found for key" ∧
    (parse_plugin_entry "foo" noScriptConfig).isErr = false := by
  exact ⟨rfl, rfl⟩

/-- C4 amended: a missing plugin entry is reported as an error result, but
a present entry whose `script` field is missing or holds a non-string
panics — the process aborts instead of an error result reaching the
caller. -/
theorem plugin_entry_lookup_outcomes (name : String) (toml : TomlValue) :
    (((toml.get "plugin").bind fun v => v.get name).bind
        TomlValue.asTable = none →
      parse_plugin_entry name toml =
        .err ⟨.notFound, s!"Plugin '{name}' not found"⟩) ∧
    (∀ sect, ((toml.get "plugin").bind fun v => v.get name).bind
        TomlValue.asTable = some sect →
      (tableGet sect "script").bind TomlValue.asStr = none →
      (parse_plugin_entry name toml).isPanic = true) := by
  constructor
  · intro h
    rw [parse_plugin_entry, h]
  · intro sect hsect hscript
    rw [parse_plugin_entry, hsect]
    cases hs : tableGet sect "script" with
    | none => simp [hs, POutcome.isPanic]
    | some sv =>
      rw [hs] at hscript
      simp only [Option.some_bind] at hscript
      simp [hs, hscript, POutcome.isPanic]

/-- C4 amended witness: the entry-absent error on a document with no
plugin section, and the panic on the script-less `[plugin.foo]` table. -/
theorem plugin_entry_lookup_outcomes_witness :
    parse_plugin_entry "foo" (.table []) =
      .err ⟨.notFound, "Plugin 'foo' not found"⟩ ∧
    (parse_plugin_entry "foo" noScriptConfig).isPanic = true :=
  ⟨(plugin_entry_lookup_outcomes "foo" (.table [])).1 rfl,
   (plugin_entry_lookup_outcomes "foo" noScriptConfig).2
     [("silent", .boolean true)] rfl rfl⟩

/-! ## Plugin outcome reporting (src/plugin.rs, run_plugin)

`run_plugin` spawns the plugin child, hands its piped stdout/stderr to
`run_plugin_stream` or `run_plugin_silent`, and reports success exactly
when the status those helpers return is a success. Both helpers join
their two drain threads but obtain the status they return from
`Command::new("true").status()` — a freshly spawned `true` process — and
never wait on the plugin child. Exit statuses are modelled by their
numeric code; `ExitStatus::success()` is `code == 0`. -/

/-- The status `run_plugin_stream` returns: the exit code of the spawned
`true` process (`Command::new("true").status()?`), not the plugin child's
exit code. -/
def run_plugin_stream_status (child_exit true_exit : Nat) : Nat :=
  true_exit

/-- The status `run_plugin_silent` returns: likewise the exit code of a
freshly spawned `true` process. -/
def run_plugin_silent_status (child_exit true_exit : Nat) : Nat :=
  true_exit

/-- The reporting tail of `run_plugin`: success is printed and `Ok(())`
returned exactly when the status obtained from the capture helper is
zero; otherwise the failure error carrying that status's code is
returned. -/
def run_plugin_reports_success (silent : Bool) (child_exit true_exit : Nat) :
    Bool :=
  let status :=
    if silent then run_plugin_silent_status child_exit true_exit
    else run_plugin_stream_status child_exit true_exit
  status == 0

/-- C1: the claim says the outcome `run_plugin` reports is the plugin
child's own exit status. In the code, the reported outcome is the exit
status of a freshly spawned `true` process and is independent of the
child's exit status: with the child exiting non-zero (e.g. 1) and `true`
exiting 0, the plugin is still reported as a success. -/
theorem plugin_outcome_ignores_child_exit (silent : Bool)
    (child_exit true_exit : Nat) :
    run_plugin_reports_success silent child_exit true_exit =
      (true_exit == 0) ∧
    run_plugin_reports_success silent 1 0 = true := by
  cases silent <;> exact ⟨rfl, rfl⟩

end Atomic
